import Mathlib

/-!
Verification of the Rubik's cube rotation engine of `rubiks-cube-graphics`.

The development shallowly embeds the cube-state and rotation logic of the
main game module (the `ROTATIONS` table, `getRotationInfo`,
`getIndicesOfCubletsToRotate` and the slot-table permutation performed by
`rotateRubiksCubeSide` at `END_ROTATE`), the scene-tree operations
(`addChild`, `removeChildAt`, `setChildren`, `switchParentKeepTransform`,
and the `transform` getter), and the transform pipeline of a completed
rotation.  Matrices are modelled over `ℚ`: at the angles the engine uses
for completed rotations (multiples of 90 degrees) every matrix entry is
exact, so rational arithmetic is the exact-arithmetic semantics of the
floating-point code, and "equal modulo floating-point tolerance" statements
are rendered as exact equalities.
-/

namespace RubiksCube

/-- Names of the 9 rotations, in the order of the `ROTATIONS` list. -/
inductive RotName
  | left | xMiddle | right | front | zMiddle | back | up | yMiddle | down
  deriving DecidableEq, Fintype

/-- Clockwise 3x3 grid mapping table `ROTATION_MAPPINGS_CLOCKWISE`. -/
def ROTATION_MAPPINGS_CLOCKWISE : List (Nat × Nat) :=
  [(2, 0), (2, 1), (2, 2),
   (1, 0), (1, 1), (1, 2),
   (0, 0), (0, 1), (0, 2)]

/-- Counter-clockwise 3x3 grid mapping table `ROTATION_MAPPINGS_COUNTER_CLOCKWISE`. -/
def ROTATION_MAPPINGS_COUNTER_CLOCKWISE : List (Nat × Nat) :=
  [(0, 2), (0, 1), (0, 0),
   (1, 2), (1, 1), (1, 0),
   (2, 2), (2, 1), (2, 0)]

/-- Flattened slot index of a coordinate triple: `(pos[0] * 9) + (pos[1] * 3) + pos[2]`
(the inner helper `cubletPositionToIndex` of `getIndicesOfCubletsToRotate`). -/
def cubletPositionToIndex (pos : Fin 3 → Nat) : Nat :=
  pos 0 * 9 + pos 1 * 3 + pos 2

/-- Builds the coordinate triple written by
`pos[axisI] = i; pos[axisJ] = j; pos[lockedAxis] = lockedValue;`
as a chain of function updates (later writes win, as in JS).  The base value 0
models the unwritten array cell; it is never read because the three axes are
pairwise distinct at every call site. -/
def mkPos (axisI axisJ lockedAxis : Fin 3) (i j v : Nat) : Fin 3 → Nat :=
  Function.update (Function.update (Function.update (fun _ => 0) axisI i) axisJ j) lockedAxis v

/-- Loop body of `getIndicesOfCubletsToRotate`: for each grid position `(i, j)`
in row-major order it produces the pair (source slot index, destination slot
index).  The destination grid cell is `mappings[(j * 3) + i]` where `mappings`
is the clockwise or counter-clockwise table.  `getIndicesOfCubletsToRotate`
returns the two projections of this list. -/
def rotationPairs (axisI axisJ lockedAxis : Fin 3) (lockedValue : Nat)
    (rotateClockwise : Bool) : List (Nat × Nat) :=
  (List.range 3).flatMap fun i =>
    (List.range 3).map fun j =>
      let srcIdx := cubletPositionToIndex (mkPos axisI axisJ lockedAxis i j lockedValue)
      let mappings := if rotateClockwise then ROTATION_MAPPINGS_CLOCKWISE
        else ROTATION_MAPPINGS_COUNTER_CLOCKWISE
      let nm := mappings.getD (j * 3 + i) (0, 0)
      let dstIdx := cubletPositionToIndex (mkPos axisI axisJ lockedAxis nm.1 nm.2 lockedValue)
      (srcIdx, dstIdx)

/-- Slot-index lists `[indices, newIndices]` returned by `getIndicesOfCubletsToRotate`. -/
def getIndicesOfCubletsToRotate (axisI axisJ lockedAxis : Fin 3) (lockedValue : Nat)
    (rotateClockwise : Bool) : List Nat × List Nat :=
  ((rotationPairs axisI axisJ lockedAxis lockedValue rotateClockwise).map Prod.fst,
   (rotationPairs axisI axisJ lockedAxis lockedValue rotateClockwise).map Prod.snd)

/-- Value of the local variable `rotateClockwise` after the dispatch chain of
`getRotationInfo`: the branches for "x-middle", "right", "back", "up" and
"y-middle" run `rotateClockwise = !rotateClockwise;` and the other four
branches leave the caller's flag unchanged. -/
def effectiveCw : RotName → Bool → Bool
  | .left, cw => cw
  | .xMiddle, cw => !cw
  | .right, cw => !cw
  | .front, cw => cw
  | .zMiddle, cw => cw
  | .back, cw => !cw
  | .up, cw => !cw
  | .yMiddle, cw => !cw
  | .down, cw => cw

/-- Arguments `(axisI, axisJ, lockedAxis, lockedValue)` that each branch of
`getRotationInfo` passes to `getIndicesOfCubletsToRotate`. -/
def sliceArgs : RotName → Fin 3 × Fin 3 × Fin 3 × Nat
  | .left => (1, 2, 0, 0)
  | .xMiddle => (1, 2, 0, 1)
  | .right => (1, 2, 0, 2)
  | .front => (1, 0, 2, 2)
  | .zMiddle => (1, 0, 2, 1)
  | .back => (1, 0, 2, 0)
  | .up => (2, 0, 1, 2)
  | .yMiddle => (2, 0, 1, 1)
  | .down => (2, 0, 1, 0)

/-- Locked axis of a rotation (third argument of `getIndicesOfCubletsToRotate`). -/
def lockedAxisOf (rot : RotName) : Fin 3 :=
  (sliceArgs rot).2.2.1

/-- Locked value of a rotation (fourth argument of `getIndicesOfCubletsToRotate`). -/
def lockedValueOf (rot : RotName) : Nat :=
  (sliceArgs rot).2.2.2

/-- Source/destination slot-index pairs of a named rotation, after the
dispatch chain of `getRotationInfo` has selected the slice arguments and
possibly inverted the clockwise flag. -/
def rotPairs (rot : RotName) (cw : Bool) : List (Nat × Nat) :=
  let a := sliceArgs rot
  rotationPairs a.1 a.2.1 a.2.2.1 a.2.2.2 (effectiveCw rot cw)

/-- List `indices` (affected slot indices) computed by `getRotationInfo`. -/
def indicesOf (rot : RotName) (cw : Bool) : List Nat :=
  (rotPairs rot cw).map Prod.fst

/-- List `newIndices` (destination slot indices) computed by `getRotationInfo`. -/
def newIndicesOf (rot : RotName) (cw : Bool) : List Nat :=
  (rotPairs rot cw).map Prod.snd

/-- The slot-table write loop of `rotateRubiksCubeSide` at `END_ROTATE`:
`for i: newCubelets[newIndices[i]] = temp[indices[i]]`, where `temp` is the
snapshot of the table taken before the loop.  `snap` is the snapshot and `t`
the array being written. -/
def writeAll {α : Type} (pairs : List (Nat × Nat)) (snap : Nat → α) (t : Nat → α) :
    Nat → α :=
  pairs.foldl (fun acc p => Function.update acc p.2 (snap p.1)) t

/-- Slot-table permutation performed by one completed rotation
(`END_ROTATE` branch of `rotateRubiksCubeSide`): the table is snapshotted
(`const temp = newCubelets.slice()`) and then each destination slot receives
the snapshot's entry at the corresponding affected slot.  The table is
indexed by flattened slot index; only indices 0..26 are ever touched. -/
def rotateTable {α : Type} (rot : RotName) (cw : Bool) (t : Nat → α) : Nat → α :=
  writeAll (rotPairs rot cw) t t

/-- Index permutation realized by one completed rotation: entry `n` of the
new table is entry `sigmaOf rot cw n` of the old table. -/
def sigmaOf (rot : RotName) (cw : Bool) : Nat → Nat :=
  rotateTable rot cw id

/-- Sequence of completed rotations applied to a slot table, first element
first.  Each element names a rotation and the caller's clockwise flag. -/
def applyRotations {α : Type} (ops : List (RotName × Bool)) (t : Nat → α) : Nat → α :=
  ops.foldl (fun acc op => rotateTable op.1 op.2 acc) t

/-- Ordered child list of the cube container: the 27 slot-table entries. -/
def childList {α : Type} (t : Nat → α) : List α :=
  (List.range 27).map t

/-- Coordinate of a flattened slot index along one axis
(inverse of `cubletPositionToIndex` on 0..26). -/
def coordOf (axis : Fin 3) (idx : Nat) : Nat :=
  if axis = 0 then idx / 9 else if axis = 1 then idx / 3 % 3 else idx % 3

theorem update_comp {α β : Type} (t : α → β) (f : Nat → α) (a : Nat) (v : α) :
    t ∘ Function.update f a v = Function.update (t ∘ f) a (t v) := by
  funext x
  simp only [Function.comp_apply, Function.update_apply, apply_ite t]

theorem writeAll_comp {α β : Type} (t : α → β) (pairs : List (Nat × Nat))
    (snap : Nat → α) (acc : Nat → α) :
    writeAll pairs (t ∘ snap) (t ∘ acc) = t ∘ writeAll pairs snap acc := by
  induction pairs generalizing acc with
  | nil => rfl
  | cons p ps ih =>
    show writeAll ps (t ∘ snap) (Function.update (t ∘ acc) p.2 ((t ∘ snap) p.1)) = _
    rw [show (t ∘ snap) p.1 = t (snap p.1) from rfl, ← update_comp, ih]
    rfl

theorem rotateTable_eq_comp {α : Type} (rot : RotName) (cw : Bool) (t : Nat → α) :
    rotateTable rot cw t = t ∘ sigmaOf rot cw := by
  have h := writeAll_comp t (rotPairs rot cw) id id
  simpa [rotateTable, sigmaOf, Function.comp_id] using h

theorem writeAll_not_dst {α : Type} (pairs : List (Nat × Nat)) (snap : Nat → α)
    (acc : Nat → α) (n : Nat) (h : n ∉ pairs.map Prod.snd) :
    writeAll pairs snap acc n = acc n := by
  induction pairs generalizing acc with
  | nil => rfl
  | cons p ps ih =>
    simp only [List.map_cons, List.mem_cons, not_or] at h
    show writeAll ps snap (Function.update acc p.2 (snap p.1)) n = acc n
    rw [ih _ h.2, Function.update_apply, if_neg h.1]

theorem dst_lt_27 : ∀ rot : RotName, ∀ cw : Bool,
    ∀ d ∈ (rotPairs rot cw).map Prod.snd, d < 27 := by decide

theorem sigmaOf_high (rot : RotName) (cw : Bool) (n : Nat) (h : 27 ≤ n) :
    sigmaOf rot cw n = n := by
  have hmem : n ∉ (rotPairs rot cw).map Prod.snd := fun hm =>
    absurd (dst_lt_27 rot cw n hm) (by omega)
  simpa [sigmaOf, rotateTable] using writeAll_not_dst (rotPairs rot cw) id id n hmem

theorem sigmaOf_inv_low : ∀ rot : RotName, ∀ n ∈ List.range 27,
    sigmaOf rot true (sigmaOf rot false n) = n := by decide

theorem sigmaOf_inv (rot : RotName) (n : Nat) :
    sigmaOf rot true (sigmaOf rot false n) = n := by
  by_cases h : n < 27
  · exact sigmaOf_inv_low rot n (List.mem_range.mpr h)
  · rw [sigmaOf_high rot false n (by omega), sigmaOf_high rot true n (by omega)]

theorem sigmaOf_four_low : ∀ rot : RotName, ∀ cw : Bool, ∀ n ∈ List.range 27,
    sigmaOf rot cw (sigmaOf rot cw (sigmaOf rot cw (sigmaOf rot cw n))) = n := by decide

theorem sigmaOf_four (rot : RotName) (cw : Bool) (n : Nat) :
    sigmaOf rot cw (sigmaOf rot cw (sigmaOf rot cw (sigmaOf rot cw n))) = n := by
  by_cases h : n < 27
  · exact sigmaOf_four_low rot cw n (List.mem_range.mpr h)
  · have hh := sigmaOf_high rot cw n (by omega)
    rw [hh, hh, hh, hh]

theorem sigma_range_perm : ∀ rot : RotName, ∀ cw : Bool,
    ((List.range 27).map (sigmaOf rot cw)).Perm (List.range 27) := by decide

theorem childList_rotate_perm {α : Type} (rot : RotName) (cw : Bool) (t : Nat → α) :
    (childList (rotateTable rot cw t)).Perm (childList t) := by
  rw [rotateTable_eq_comp, childList, childList, ← List.map_map]
  exact (sigma_range_perm rot cw).map t

/-!
Matrices.  4x4 matrices are modelled over `ℚ`.  Every matrix a completed
rotation feeds through the pipeline has exact rational entries (the engine
only evaluates its trigonometry at multiples of 90 degrees there), so this
is the exact-arithmetic semantics of the floating-point glMatrix library.
-/

/-- Exact-arithmetic model of a glMatrix `mat4` (as a linear map; glMatrix
stores matrices column-major, which does not affect any algebraic fact here). -/
abbrev Mat4 := Matrix (Fin 4) (Fin 4) ℚ

/-- Modelled from the spec: `identityMat4` of the linear-algebra utility
module (imported by the game module, source not provided) returns a fresh
identity matrix. -/
def identityMat4 : Mat4 := 1

/-- Modelled from the spec: `multiplyMat4(a, b)` of the linear-algebra
utility module stores the product `a × b` back into `a` (spec 4.4: the
pivot's local transform becomes `alignmentMatrix × spinMatrix`); modelled
functionally as returning the product. -/
def multiplyMat4 (a b : Mat4) : Mat4 := a * b

/-- Modelled from the spec: glMatrix `Mat4.invert`, which
`switchParentKeepTransform` applies to the new parent's world transform
(spec 4.1/4.4: the re-parented local transform is
`inverse(newParentWorld) × oldWorldTransform`).  Written via the adjugate so
the function is total; on invertible input it is the matrix inverse. -/
def invertMat4 (a : Mat4) : Mat4 := (a.det)⁻¹ • a.adjugate

theorem mul_invertMat4 (a : Mat4) (h : a.det ≠ 0) : a * invertMat4 a = 1 := by
  rw [invertMat4, Matrix.mul_smul, Matrix.mul_adjugate, smul_smul,
    inv_mul_cancel₀ h, one_smul]

theorem invertMat4_mul (a : Mat4) (h : a.det ≠ 0) : invertMat4 a * a = 1 := by
  rw [invertMat4, Matrix.smul_mul, Matrix.adjugate_mul, smul_smul,
    inv_mul_cancel₀ h, one_smul]

theorem invertMat4_cancel_left (a : Mat4) (h : a.det ≠ 0) (y : Mat4) :
    invertMat4 a * (a * y) = y := by
  rw [← mul_assoc, invertMat4_mul a h, one_mul]

theorem mul_invertMat4_cancel_left (a : Mat4) (h : a.det ≠ 0) (y : Mat4) :
    a * (invertMat4 a * y) = y := by
  rw [← mul_assoc, mul_invertMat4 a h, one_mul]

theorem det_ne_zero_of_mul_eq_one (a b : Mat4) (h : a * b = 1) : a.det ≠ 0 := by
  have hd : a.det * b.det = 1 := by rw [← Matrix.det_mul, h, Matrix.det_one]
  exact left_ne_zero_of_mul_eq_one hd

theorem invertMat4_of_mul (r a : Mat4) (hr : r.det ≠ 0) (ha : a.det ≠ 0) :
    invertMat4 (r * a) = invertMat4 a * invertMat4 r := by
  have hra : (r * a).det ≠ 0 := by
    rw [Matrix.det_mul]; exact mul_ne_zero hr ha
  have h1 : r * a * (invertMat4 a * invertMat4 r) = 1 := by
    rw [mul_assoc, ← mul_assoc a, mul_invertMat4 a ha, one_mul, mul_invertMat4 r hr]
  calc invertMat4 (r * a) = invertMat4 (r * a) * (r * a * (invertMat4 a * invertMat4 r)) := by
        rw [h1, mul_one]
    _ = invertMat4 (r * a) * (r * a) * (invertMat4 a * invertMat4 r) := by rw [← mul_assoc]
    _ = invertMat4 a * invertMat4 r := by rw [invertMat4_mul _ hra, one_mul]

/-- Exact value of `angleAxisToMat4(90, [0, 1, 0])`: a 90-degree rotation
about the y axis (the alignment rotation of "front"/"z-middle"/"back"). -/
def rotY90 : Mat4 := !![0, 0, 1, 0; 0, 1, 0, 0; -1, 0, 0, 0; 0, 0, 0, 1]

/-- Exact value of `angleAxisToMat4(90, [0, 0, 1])`: a 90-degree rotation
about the z axis (the alignment rotation of "up"/"y-middle"/"down"). -/
def rotZ90 : Mat4 := !![0, -1, 0, 0; 1, 0, 0, 0; 0, 0, 1, 0; 0, 0, 0, 1]

/-- Exact value of `angleAxisToMat4(-90, [-1, 0, 0])` (the end spin when the
effective clockwise flag is set): a 90-degree rotation about the x axis. -/
def rotXp90 : Mat4 := !![1, 0, 0, 0; 0, 0, -1, 0; 0, 1, 0, 0; 0, 0, 0, 1]

/-- Exact value of `angleAxisToMat4(90, [-1, 0, 0])` (the end spin when the
effective clockwise flag is clear): a minus-90-degree rotation about the x axis. -/
def rotXm90 : Mat4 := !![1, 0, 0, 0; 0, 0, 1, 0; 0, -1, 0, 0; 0, 0, 0, 1]

theorem rotY90_mul_transpose : rotY90 * rotY90.transpose = 1 := by
  ext i j
  fin_cases i <;> fin_cases j <;>
    simp [rotY90, Matrix.mul_apply, Fin.sum_univ_four, Matrix.one_apply,
      Matrix.vecHead, Matrix.vecTail, Matrix.transpose_apply]

theorem rotZ90_mul_transpose : rotZ90 * rotZ90.transpose = 1 := by
  ext i j
  fin_cases i <;> fin_cases j <;>
    simp [rotZ90, Matrix.mul_apply, Fin.sum_univ_four, Matrix.one_apply,
      Matrix.vecHead, Matrix.vecTail, Matrix.transpose_apply]

theorem rotXp90_four : rotXp90 * rotXp90 * rotXp90 * rotXp90 = 1 := by
  ext i j
  fin_cases i <;> fin_cases j <;>
    simp [rotXp90, Matrix.mul_apply, Fin.sum_univ_four, Matrix.one_apply,
      Matrix.vecHead, Matrix.vecTail]

theorem rotXm90_four : rotXm90 * rotXm90 * rotXm90 * rotXm90 = 1 := by
  ext i j
  fin_cases i <;> fin_cases j <;>
    simp [rotXm90, Matrix.mul_apply, Fin.sum_univ_four, Matrix.one_apply,
      Matrix.vecHead, Matrix.vecTail]

/-- Value of the `axis` local variable selected by the dispatch chain of
`getRotationInfo`: `null` for the x-axis slices, `[0, 1, 0]` for the z-axis
slices and `[0, 0, 1]` for the y-axis slices. -/
inductive AlignAxis
  | noAxis | yAxis | zAxis
  deriving DecidableEq

/-- Dispatch of the `axis` local variable per rotation name. -/
def alignAxisOf : RotName → AlignAxis
  | .left => .noAxis
  | .xMiddle => .noAxis
  | .right => .noAxis
  | .front => .yAxis
  | .zMiddle => .yAxis
  | .back => .yAxis
  | .up => .zAxis
  | .yMiddle => .zAxis
  | .down => .zAxis

/-- Alignment matrix built at the end of `getRotationInfo`:
`identityMat4()`, then `rotateMat4(alignmentMatrix, 90, axis)` (which
multiplies in `angleAxisToMat4(90, axis)`) when `axis` is not null. -/
def alignmentMatrix (rot : RotName) : Mat4 :=
  match alignAxisOf rot with
  | .noAxis => identityMat4
  | .yAxis => multiplyMat4 identityMat4 rotY90
  | .zAxis => multiplyMat4 identityMat4 rotZ90

/-- Spin matrix `angleAxisToMat4(factor * 90 * interpolation, [-1, 0, 0])`
of `getRotationInfo` at `interpolation = 1` (the value every completed
rotation bakes in), where `factor` is `-1` when the effective clockwise
flag is set and `1` otherwise. -/
def spinMatrixEnd (cwEff : Bool) : Mat4 :=
  if cwEff then rotXp90 else rotXm90

/-- Output of `getRotationInfo` for a completed rotation: alignment matrix,
spin matrix (given at `interpolation = 1`; the interpolation argument only
scales the spin angle and has no influence on the index lists), affected
slot indices and destination slot indices. -/
def getRotationInfo (rot : RotName) (cw : Bool) : Mat4 × Mat4 × List Nat × List Nat :=
  (alignmentMatrix rot, spinMatrixEnd (effectiveCw rot cw), indicesOf rot cw, newIndicesOf rot cw)

theorem alignmentMatrix_det (rot : RotName) : (alignmentMatrix rot).det ≠ 0 := by
  cases rot <;>
    simp only [alignmentMatrix, alignAxisOf, multiplyMat4, identityMat4, one_mul] <;>
    first
      | exact det_ne_zero_of_mul_eq_one _ _ (mul_one 1)
      | exact det_ne_zero_of_mul_eq_one _ _ rotY90_mul_transpose
      | exact det_ne_zero_of_mul_eq_one _ _ rotZ90_mul_transpose

theorem spinMatrixEnd_four (b : Bool) :
    spinMatrixEnd b * spinMatrixEnd b * spinMatrixEnd b * spinMatrixEnd b = 1 := by
  cases b
  · exact rotXm90_four
  · exact rotXp90_four



/-- World transform as computed by the scene node `transform` getter:
parent's world transform times the node's own local transform. -/
def nodeWorld (parentWorld localTransform : Mat4) : Mat4 :=
  parentWorld * localTransform

/-- World transform of the root `world` node: no parent, identity local. -/
def rootWorld : Mat4 := identityMat4

/-- World transform of `GLB.rubiksCube` when its local transform is `R`
(mouse orbiting mutates `R`; rotations never do). -/
def rubiksWorld (R : Mat4) : Mat4 := nodeWorld rootWorld R

/-- World transform of `GLB.cubelets`: its local transform stays the
identity it was created with. -/
def cubeletsWorld (R : Mat4) : Mat4 := nodeWorld (rubiksWorld R) identityMat4

/-- World transform of `GLB.temp` while its local transform is `tempLocal`. -/
def tempWorld (R tempLocal : Mat4) : Mat4 := nodeWorld (rubiksWorld R) tempLocal

/-- New local transform computed by `switchParentKeepTransform`:
the inverse of the new parent's world transform times the child's world
transform (computed before any detach). -/
def switchParentLocal (newParentWorld childWorld : Mat4) : Mat4 :=
  invertMat4 newParentWorld * childWorld

/-- Local transform of an affected cublet just after `START_ROTATE`:
the pivot local is the alignment matrix `A` and the cublet (previous local
`loc`, parent `GLB.cubelets`) is re-parented onto the pivot. -/
def startRotateLocal (R A loc : Mat4) : Mat4 :=
  switchParentLocal (tempWorld R A) (nodeWorld (cubeletsWorld R) loc)

/-- Local transform after `END_ROTATE`'s
`switchParentKeepTransform(cublet, temp, cubelets, true)`: the pivot local
is `alignmentMatrix * spin` and the local is renormalized against
`GLB.cubelets` without moving the node. -/
def endRotateLocal (R A S locOnTemp : Mat4) : Mat4 :=
  switchParentLocal (cubeletsWorld R) (nodeWorld (tempWorld R (multiplyMat4 A S)) locOnTemp)

/-- Net change of an affected cublet's local transform over one completed
rotation (start re-parent followed by end renormalization). -/
def rotatedLoc (R A S loc : Mat4) : Mat4 :=
  endRotateLocal R A S (startRotateLocal R A loc)

theorem rotatedLoc_eq (R A S loc : Mat4) (hR : R.det ≠ 0) (hA : A.det ≠ 0) :
    rotatedLoc R A S loc = A * (S * (invertMat4 A * loc)) := by
  simp only [rotatedLoc, endRotateLocal, startRotateLocal, switchParentLocal,
    nodeWorld, tempWorld, cubeletsWorld, rubiksWorld, rootWorld, multiplyMat4,
    identityMat4, one_mul, mul_one]
  rw [invertMat4_of_mul R A hR hA]
  simp only [mul_assoc]
  rw [invertMat4_cancel_left R hR, invertMat4_cancel_left R hR]

theorem rotatedLoc_four (R A S loc : Mat4) (hR : R.det ≠ 0) (hA : A.det ≠ 0)
    (hS : S * S * S * S = 1) :
    rotatedLoc R A S (rotatedLoc R A S (rotatedLoc R A S (rotatedLoc R A S loc))) = loc := by
  rw [rotatedLoc_eq R A S _ hR hA, rotatedLoc_eq R A S _ hR hA,
    rotatedLoc_eq R A S _ hR hA, rotatedLoc_eq R A S loc hR hA]
  rw [invertMat4_cancel_left A hA, invertMat4_cancel_left A hA,
    invertMat4_cancel_left A hA]
  have h4 : S * (S * (S * (S * (invertMat4 A * loc)))) = invertMat4 A * loc := by
    rw [← mul_assoc, ← mul_assoc, ← mul_assoc, hS, one_mul]
  rw [h4, mul_invertMat4_cancel_left A hA]


/-- Reference to a cublet scene node together with its current local
transform.  The reference component `ref` models JS object identity. -/
structure Cublet (α : Type) where
  ref : α
  loc : Mat4

theorem mem_indices_iff_sigma_low : ∀ rot : RotName, ∀ cw : Bool, ∀ n ∈ List.range 27,
    (decide (n ∈ indicesOf rot cw) = decide (sigmaOf rot cw n ∈ indicesOf rot cw)) := by decide

theorem src_lt_27 : ∀ rot : RotName, ∀ cw : Bool, ∀ d ∈ indicesOf rot cw, d < 27 := by decide

theorem mem_indices_iff_sigma (rot : RotName) (cw : Bool) (n : Nat) :
    n ∈ indicesOf rot cw ↔ sigmaOf rot cw n ∈ indicesOf rot cw := by
  by_cases h : n < 27
  · have := mem_indices_iff_sigma_low rot cw n (List.mem_range.mpr h)
    constructor
    · intro hm
      have hd : decide (n ∈ indicesOf rot cw) = true := decide_eq_true hm
      exact of_decide_eq_true (this ▸ hd)
    · intro hm
      have hd : decide (sigmaOf rot cw n ∈ indicesOf rot cw) = true := decide_eq_true hm
      exact of_decide_eq_true (this.symm ▸ hd)
  · rw [sigmaOf_high rot cw n (by omega)]

/-- Local-transform update performed on the nine affected cublets over one
completed rotation (the cublets selected at `START_ROTATE` from the slot
indices, each re-parented onto the pivot and renormalized back at
`END_ROTATE`); the other cublets' transforms are untouched. -/
def updLocals {α : Type} (rot : RotName) (cw : Bool) (R : Mat4)
    (t : Nat → Cublet α) : Nat → Cublet α := fun n =>
  if n ∈ indicesOf rot cw then
    ⟨(t n).ref, rotatedLoc R (alignmentMatrix rot) (spinMatrixEnd (effectiveCw rot cw)) (t n).loc⟩
  else t n

/-- One completed rotation of the cube state: the affected cublets' local
transforms are updated through the pivot and the slot table is permuted. -/
def completeRotation {α : Type} (rot : RotName) (cw : Bool) (R : Mat4)
    (t : Nat → Cublet α) : Nat → Cublet α :=
  rotateTable rot cw (updLocals rot cw R t)

theorem updLocals_comp_sigma {α : Type} (rot : RotName) (cw : Bool) (R : Mat4)
    (u : Nat → Cublet α) :
    updLocals rot cw R (u ∘ sigmaOf rot cw) = updLocals rot cw R u ∘ sigmaOf rot cw := by
  funext n
  simp only [updLocals, Function.comp_apply]
  by_cases h : n ∈ indicesOf rot cw
  · rw [if_pos h, if_pos ((mem_indices_iff_sigma rot cw n).mp h)]
  · rw [if_neg h, if_neg (fun hc => h ((mem_indices_iff_sigma rot cw n).mpr hc))]

theorem updLocals_four {α : Type} (rot : RotName) (cw : Bool) (R : Mat4)
    (t : Nat → Cublet α) (hR : R.det ≠ 0) (n : Nat) :
    updLocals rot cw R (updLocals rot cw R (updLocals rot cw R (updLocals rot cw R t))) n
      = t n := by
  by_cases h : n ∈ indicesOf rot cw
  · simp only [updLocals, if_pos h]
    rw [rotatedLoc_four R _ _ _ hR (alignmentMatrix_det rot) (spinMatrixEnd_four _)]
  · simp only [updLocals, if_neg h]

/-- Claim C9: for each rotation name and fixed clockwise flag, completing
that rotation four times restores the slot table to its original ordering
and restores every affected cublet's local transform to its original value
(exactly, in the exact-arithmetic model of the matrix pipeline), provided
the cube's orbit transform is invertible. -/
theorem completeRotation_four {α : Type} (rot : RotName) (cw : Bool) (R : Mat4)
    (t : Nat → Cublet α) (hR : R.det ≠ 0) :
    completeRotation rot cw R (completeRotation rot cw R
      (completeRotation rot cw R (completeRotation rot cw R t))) = t := by
  have step : ∀ u : Nat → Cublet α,
      completeRotation rot cw R u = updLocals rot cw R u ∘ sigmaOf rot cw := fun u =>
    rotateTable_eq_comp rot cw (updLocals rot cw R u)
  have h2 : completeRotation rot cw R (completeRotation rot cw R t)
      = (updLocals rot cw R (updLocals rot cw R t) ∘ sigmaOf rot cw) ∘ sigmaOf rot cw := by
    rw [step t, step _, updLocals_comp_sigma]
  have h3 : completeRotation rot cw R (completeRotation rot cw R (completeRotation rot cw R t))
      = ((updLocals rot cw R (updLocals rot cw R (updLocals rot cw R t))
          ∘ sigmaOf rot cw) ∘ sigmaOf rot cw) ∘ sigmaOf rot cw := by
    rw [h2, step _, updLocals_comp_sigma, updLocals_comp_sigma]
  rw [h3, step _, updLocals_comp_sigma, updLocals_comp_sigma, updLocals_comp_sigma]
  funext n
  simp only [Function.comp_apply]
  rw [sigmaOf_four]
  exact updLocals_four rot cw R t hR n



/-- State of the mutable scene tree: for each node id, its parent pointer
and its children list.  Node ids model the `_id` field that `SceneTreeNode`
assigns from a global counter, so distinct nodes have distinct ids. -/
structure TreeState where
  par : Nat → Option Nat
  chl : Nat → List Nat

/-- Errors thrown by the scene-tree operations, one per `throw` site used. -/
inductive TreeErr
  | childHasParent
  | childNotFound
  | indexOutOfBounds
  | dupChildren
  deriving DecidableEq

/-- Outcome of a mutating scene-tree operation: the state after it together
with the thrown error, if any (a JS `throw` leaves the mutations already
performed in place, so the state component is meaningful in both cases). -/
abbrev TreeResult := TreeState × Option TreeErr

/-- Operation `addChild`: fails when the child already has a parent, else
sets the child's parent pointer and appends the child to the children list. -/
def addChild (p c : Nat) (s : TreeState) : TreeResult :=
  match s.par c with
  | some _ => (s, some .childHasParent)
  | none =>
    (⟨Function.update s.par c (some p), Function.update s.chl p (s.chl p ++ [c])⟩, none)

/-- Operation `removeChildAt`: bounds-checked; splices the child at `index`
out of the children list and clears its parent pointer. -/
def removeChildAt (p : Nat) (i : Nat) (s : TreeState) : TreeResult :=
  if h : i < (s.chl p).length then
    (⟨Function.update s.par ((s.chl p).get ⟨i, h⟩) none,
      Function.update s.chl p ((s.chl p).eraseIdx i)⟩, none)
  else (s, some .indexOutOfBounds)

/-- Removal loop of `setChildren`:
`for (let i = this.children.length - 1; i >= 0; --i) this.removeChildAt(i);`.
The first argument is one past the next index to remove. -/
def removeLoop (p : Nat) : Nat → TreeState → TreeResult
  | 0, s => (s, none)
  | i + 1, s =>
    match removeChildAt p i s with
    | (s1, none) => removeLoop p i s1
    | (s1, some e) => (s1, some e)

/-- Insertion loop of `setChildren`:
`for (const child of newChildren) this.addChild(child);`. -/
def addLoop (p : Nat) : List Nat → TreeState → TreeResult
  | [], s => (s, none)
  | c :: cs, s =>
    match addChild p c s with
    | (s1, none) => addLoop p cs s1
    | (s1, some e) => (s1, some e)

/-- Operation `setChildren(newChildren)`: throws (before any mutation) when
`newChildren` holds two references with the same id; otherwise removes all
current children from the last index down, then adds each new child in order. -/
def setChildren (p : Nat) (newChildren : List Nat) (s : TreeState) : TreeResult :=
  if newChildren.Nodup then
    match removeLoop p (s.chl p).length s with
    | (s1, none) => addLoop p newChildren s1
    | (s1, some e) => (s1, some e)
  else (s, some .dupChildren)

theorem concat_get_length (xs : List Nat) (x : Nat) (h : xs.length < (xs ++ [x]).length) :
    (xs ++ [x]).get ⟨xs.length, h⟩ = x := by
  induction xs with
  | nil => rfl
  | cons y ys ih => exact ih (by simp)

theorem concat_eraseIdx (xs : List Nat) (x : Nat) :
    (xs ++ [x]).eraseIdx xs.length = xs := by
  induction xs with
  | nil => rfl
  | cons y ys ih => simp [List.eraseIdx, ih]

theorem removeLoop_spec (p : Nat) (l : List Nat) (s : TreeState) (h : s.chl p = l) :
    removeLoop p l.length s =
      (⟨fun c => if c ∈ l then none else s.par c, Function.update s.chl p []⟩, none) := by
  induction l using List.reverseRecOn generalizing s with
  | nil =>
    show (s, none) = _
    rw [show (fun c => if c ∈ ([] : List Nat) then none else s.par c) = s.par from by
      funext c; simp]
    rw [show Function.update s.chl p [] = s.chl from by
      rw [← h]; exact Function.update_eq_self p s.chl]
  | append_singleton xs x ih =>
    rw [show (xs ++ [x]).length = xs.length + 1 from by simp]
    show (match removeChildAt p xs.length s with
      | (s1, none) => removeLoop p xs.length s1
      | (s1, some e) => (s1, some e)) = _
    have hlt : xs.length < (s.chl p).length := by rw [h]; simp
    rw [removeChildAt, dif_pos hlt]
    have hget : (s.chl p).get ⟨xs.length, hlt⟩ = x := by
      rw [List.get_of_eq h]
      exact concat_get_length xs x _
    have herase : (s.chl p).eraseIdx xs.length = xs := by
      rw [h]; exact concat_eraseIdx xs x
    rw [hget, herase]
    set s1 : TreeState :=
      ⟨Function.update s.par x none, Function.update s.chl p xs⟩ with hs1
    have h1 : s1.chl p = xs := Function.update_same p xs s.chl
    show removeLoop p xs.length s1 = _
    rw [ih s1 h1]
    have hpar : (fun c => if c ∈ xs then none else s1.par c)
        = fun c => if c ∈ xs ++ [x] then none else s.par c := by
      funext c
      by_cases hc : c ∈ xs
      · simp [hc]
      · by_cases hcx : c = x
        · subst hcx
          simp [hc, hs1, Function.update_same]
        · simp [hc, hcx, hs1, Function.update_noteq hcx]
    have hchl : Function.update s1.chl p [] = Function.update s.chl p [] := by
      funext q
      simp only [hs1, Function.update_apply]
      by_cases hq : q = p <;> simp [hq]
    rw [hpar, hchl]


theorem addLoop_spec (p : Nat) (cs : List Nat) (s : TreeState) (hnd : cs.Nodup)
    (hpar : ∀ c ∈ cs, s.par c = none) :
    addLoop p cs s =
      (⟨fun c => if c ∈ cs then some p else s.par c,
        Function.update s.chl p (s.chl p ++ cs)⟩, none) := by
  induction cs generalizing s with
  | nil =>
    show (s, none) = _
    rw [show (fun c => if c ∈ ([] : List Nat) then some p else s.par c) = s.par from by
      funext c; simp]
    rw [show Function.update s.chl p (s.chl p ++ []) = s.chl from by
      rw [List.append_nil]; exact Function.update_eq_self p s.chl]
  | cons c cs ih =>
    show (match addChild p c s with
      | (s1, none) => addLoop p cs s1
      | (s1, some e) => (s1, some e)) = _
    rw [addChild]
    rw [hpar c (List.mem_cons_self c cs)]
    set s1 : TreeState :=
      ⟨Function.update s.par c (some p), Function.update s.chl p (s.chl p ++ [c])⟩ with hs1
    show addLoop p cs s1 = _
    have hnd1 : cs.Nodup := (List.nodup_cons.mp hnd).2
    have hcn : c ∉ cs := (List.nodup_cons.mp hnd).1
    have hpar1 : ∀ d ∈ cs, s1.par d = none := by
      intro d hd
      have hdc : d ≠ c := fun hdc => hcn (hdc ▸ hd)
      rw [hs1]
      show Function.update s.par c (some p) d = none
      rw [Function.update_noteq hdc]
      exact hpar d (List.mem_cons_of_mem c hd)
    rw [ih s1 hnd1 hpar1]
    have hpar2 : (fun d => if d ∈ cs then some p else s1.par d)
        = fun d => if d ∈ c :: cs then some p else s.par d := by
      funext d
      by_cases hd : d ∈ cs
      · simp [hd]
      · by_cases hdc : d = c
        · subst hdc
          simp [hd, hs1, Function.update_same]
        · simp [hd, hdc, hs1, Function.update_noteq hdc]
    have hchl2 : Function.update s1.chl p (s1.chl p ++ cs)
        = Function.update s.chl p (s.chl p ++ c :: cs) := by
      have hc1 : s1.chl p = s.chl p ++ [c] := Function.update_same p _ s.chl
      funext q
      simp only [Function.update_apply, hc1]
      by_cases hq : q = p <;> simp [hq, hs1]
    rw [hpar2, hchl2]

/-- Claim C8: `setChildren(parent, newChildren)` throws when `newChildren`
contains two references to the same node, leaving the children list and all
parent pointers exactly as they were; with no duplicate (and each new child
either parentless or a current child of this parent, so that the adds are
well-formed) it removes every current child, clearing its parent pointer,
then adds each element of `newChildren` in order. -/
theorem setChildren_spec (p : Nat) (cs : List Nat) (s : TreeState) :
    (¬ cs.Nodup → setChildren p cs s = (s, some .dupChildren)) ∧
    (cs.Nodup → (∀ c ∈ cs, s.par c = none ∨ c ∈ s.chl p) →
      ∃ s1, setChildren p cs s = (s1, none) ∧
        s1.chl p = cs ∧
        (∀ c ∈ cs, s1.par c = some p) ∧
        (∀ c ∈ s.chl p, c ∉ cs → s1.par c = none) ∧
        (∀ q, q ≠ p → s1.chl q = s.chl q)) := by
  constructor
  · intro hnd
    rw [setChildren, if_neg hnd]
  · intro hnd hpar
    rw [setChildren, if_pos hnd, removeLoop_spec p (s.chl p) s rfl]
    set sr : TreeState :=
      ⟨fun c => if c ∈ s.chl p then none else s.par c, Function.update s.chl p []⟩ with hsr
    have hparr : ∀ c ∈ cs, sr.par c = none := by
      intro c hc
      show (if c ∈ s.chl p then none else s.par c) = none
      rcases hpar c hc with h | h
      · by_cases hm : c ∈ s.chl p <;> simp [hm, h]
      · simp [h]
    have hsrp : sr.chl p = [] := Function.update_same p [] s.chl
    refine ⟨⟨fun c => if c ∈ cs then some p else sr.par c,
      Function.update sr.chl p (sr.chl p ++ cs)⟩, ?_, ?_, ?_, ?_, ?_⟩
    · show addLoop p cs sr = _
      exact addLoop_spec p cs sr hnd hparr
    · show Function.update sr.chl p (sr.chl p ++ cs) p = cs
      rw [Function.update_same, hsrp, List.nil_append]
    · intro c hc
      show (if c ∈ cs then some p else sr.par c) = some p
      rw [if_pos hc]
    · intro c hcp hcs
      show (if c ∈ cs then some p else sr.par c) = none
      rw [if_neg hcs]
      show (if c ∈ s.chl p then none else s.par c) = none
      rw [if_pos hcp]
    · intro q hq
      show Function.update sr.chl p (sr.chl p ++ cs) q = s.chl q
      rw [Function.update_noteq hq]
      show Function.update s.chl p [] q = s.chl q
      rw [Function.update_noteq hq]



/-- Value of a JS variable that may be `undefined`, `null`, or an actual value
(the dispatch chain of `getRotationInfo` declares `let indicesToRotate,
newIndicesAfterRotation, axis;`, leaving all three `undefined` when no branch
matches, and JS distinguishes `undefined` from `null`). -/
inductive JsVal (α : Type)
  | jsUndefined
  | null
  | val (a : α)
  deriving DecidableEq

/-- JS runtime error raised by the matrix code when handed a non-vector. -/
inductive JsErr
  | typeError
  deriving DecidableEq

/-- Names in the `ROTATIONS` list, as the strings the code dispatches on. -/
def ROTATIONS : List String :=
  ["left", "x-middle", "right", "front", "z-middle", "back", "up", "y-middle", "down"]

/-- Value assigned to `axis` by the dispatch chain of `getRotationInfo`:
`null` for the three x-axis slices, `[0, 1, 0]` for the z-axis slices,
`[0, 0, 1]` for the y-axis slices, and (implicitly) `undefined` when the
rotation name matches no branch. -/
def axisForJS (rotation : String) : JsVal (List ℚ) :=
  if rotation = "left" then .null
  else if rotation = "x-middle" then .null
  else if rotation = "right" then .null
  else if rotation = "front" then .val [0, 1, 0]
  else if rotation = "z-middle" then .val [0, 1, 0]
  else if rotation = "back" then .val [0, 1, 0]
  else if rotation = "up" then .val [0, 0, 1]
  else if rotation = "y-middle" then .val [0, 0, 1]
  else if rotation = "down" then .val [0, 0, 1]
  else .jsUndefined

/-- Values assigned to `indicesToRotate` and `newIndicesAfterRotation` by the
dispatch chain: the pair of index lists when a branch matches, otherwise the
variables keep their `undefined` initial value. -/
def indexListsJS (rotation : String) (cw : Bool) : JsVal (List Nat) × JsVal (List Nat) :=
  if rotation = "left" then (.val (indicesOf .left cw), .val (newIndicesOf .left cw))
  else if rotation = "x-middle" then (.val (indicesOf .xMiddle cw), .val (newIndicesOf .xMiddle cw))
  else if rotation = "right" then (.val (indicesOf .right cw), .val (newIndicesOf .right cw))
  else if rotation = "front" then (.val (indicesOf .front cw), .val (newIndicesOf .front cw))
  else if rotation = "z-middle" then (.val (indicesOf .zMiddle cw), .val (newIndicesOf .zMiddle cw))
  else if rotation = "back" then (.val (indicesOf .back cw), .val (newIndicesOf .back cw))
  else if rotation = "up" then (.val (indicesOf .up cw), .val (newIndicesOf .up cw))
  else if rotation = "y-middle" then (.val (indicesOf .yMiddle cw), .val (newIndicesOf .yMiddle cw))
  else if rotation = "down" then (.val (indicesOf .down cw), .val (newIndicesOf .down cw))
  else (.jsUndefined, .jsUndefined)

/-- JS behaviour of `angleAxisToMat4` (through `angleAxisToQuat`, whose first
step is `vec3.normalize(vec3.create(), axis)`): reading `axis[0]` from
`undefined` or `null` throws an uncontrolled `TypeError`; an actual vector
produces a matrix. -/
def angleAxisToMat4JS (axis : JsVal (List ℚ)) : Except JsErr Unit :=
  match axis with
  | .val _ => .ok ()
  | _ => .error .typeError

/-- JS behaviour of `rotateMat4(matrix, angle, axis)`, which first evaluates
`angleAxisToMat4(angle, axis)`. -/
def rotateMat4JS (axis : JsVal (List ℚ)) : Except JsErr Unit :=
  angleAxisToMat4JS axis

/-- Tail of `getRotationInfo` under JS semantics, tracking definedness:
the dispatch chain assigns `axis` and the index lists (with no validation
branch and no early error for unrecognized names), then
`if (axis !== null) rotateMat4(alignmentMatrix, 90, axis);` runs, and the
(possibly still undefined) index lists are returned. -/
def getRotationInfoJS (rotation : String) (cw : Bool) :
    Except JsErr (JsVal (List Nat) × JsVal (List Nat)) :=
  let axis := axisForJS rotation
  if axis = .null then .ok (indexListsJS rotation cw)
  else
    match rotateMat4JS axis with
    | .ok _ => .ok (indexListsJS rotation cw)
    | .error e => .error e



theorem sigma_dst_src : ∀ rot : RotName, ∀ cw : Bool, ∀ k ∈ List.range 9,
    sigmaOf rot cw ((newIndicesOf rot cw).getD k 0) = (indicesOf rot cw).getD k 0 := by decide

/-- Claim C1 (counterexample): the claim asserts that all six face rotations
invert the caller's clockwise flag; the "left" branch of `getRotationInfo`
passes the flag through unchanged, so the flag is not inverted there. -/
theorem effectiveCw_left_not_inverted : effectiveCw RotName.left true ≠ (!true) := by decide

/-- Claim C1 (amended): the dispatch chain of `getRotationInfo` inverts the
caller's clockwise flag before the slice permutation is computed exactly for
"x-middle", "right", "back", "up" and "y-middle"; the flag passes through
unchanged for "left", "front", "z-middle" and "down". -/
theorem effectiveCw_inversion_pattern : ∀ rot : RotName, ∀ cw : Bool,
    effectiveCw rot cw =
      if rot ∈ [RotName.xMiddle, RotName.right, RotName.back, RotName.up, RotName.yMiddle]
      then !cw else cw := by decide

theorem applyRotations_perm_aux {α : Type} (ops : List (RotName × Bool)) (t : Nat → α) :
    (childList (applyRotations ops t)).Perm (childList t) := by
  induction ops generalizing t with
  | nil => exact List.Perm.refl _
  | cons op ops ih =>
    exact (ih (rotateTable op.1 op.2 t)).trans (childList_rotate_perm op.1 op.2 t)

/-- Claim C2: starting from a slot table whose 27 entries are distinct,
after every finite sequence of completed rotations the cube container's
child list is a permutation of the same 27 entries: none missing and no
duplicates.  (Animated and instantaneous rotations perform the identical
`END_ROTATE` bulk permutation, which is what `rotateTable` models; the
interpolation parameter never reaches the index lists.) -/
theorem applyRotations_perm {α : Type} (ops : List (RotName × Bool)) (t : Nat → α)
    (hnd : (childList t).Nodup) :
    (childList (applyRotations ops t)).Perm (childList t) ∧
    (childList (applyRotations ops t)).Nodup :=
  ⟨applyRotations_perm_aux ops t, ((applyRotations_perm_aux ops t).symm.nodup hnd)⟩

theorem applyRotations_perm_witness :
    ((childList (fun n : Nat => n)).Nodup) ∧
    ((childList (applyRotations [(RotName.up, true)] (fun n : Nat => n))).Perm
        (childList (fun n : Nat => n)) ∧
      (childList (applyRotations [(RotName.up, true)] (fun n : Nat => n))).Nodup) :=
  ⟨by decide, applyRotations_perm [(RotName.up, true)] (fun n : Nat => n) (by decide)⟩

/-- Claim C3: for each of the 9 rotation names, completing the rotation with
the clockwise flag set and then completing it with the flag clear restores
the slot table exactly. -/
theorem rotate_cw_then_ccw_id {α : Type} (rot : RotName) (t : Nat → α) :
    rotateTable rot false (rotateTable rot true t) = t := by
  rw [rotateTable_eq_comp, rotateTable_eq_comp]
  funext n
  exact congrArg t (sigmaOf_inv rot n)

/-- Claim C4: for every rotation name and clockwise flag, `getRotationInfo`
returns exactly 9 affected and 9 destination slot indices, every one of them
lies in the layer fixed by the rotation's locked axis and locked value, and
the destination list is a permutation of the affected list. -/
theorem getRotationInfo_index_props : ∀ rot : RotName, ∀ cw : Bool,
    (getRotationInfo rot cw).2.2.1 = indicesOf rot cw ∧
    (getRotationInfo rot cw).2.2.2 = newIndicesOf rot cw ∧
    (indicesOf rot cw).length = 9 ∧
    (newIndicesOf rot cw).length = 9 ∧
    (∀ i ∈ indicesOf rot cw, coordOf (lockedAxisOf rot) i = lockedValueOf rot) ∧
    (∀ i ∈ newIndicesOf rot cw, coordOf (lockedAxisOf rot) i = lockedValueOf rot) ∧
    (newIndicesOf rot cw).Perm (indicesOf rot cw) := by
  intro rot cw
  refine ⟨rfl, rfl, ?_⟩
  revert rot cw
  decide

/-- Claim C5: completing "up" with the clockwise flag set cycles the corner
slots (0,2,0) → (2,2,0) → (2,2,2) → (0,2,2) → (0,2,0) and fixes the
face-center slot (1,2,1): the new table's entry at each target slot is the
old table's entry at its source slot. -/
theorem up_clockwise_corner_cycle {α : Type} (t : Nat → α) :
    rotateTable RotName.up true t (cubletPositionToIndex ![2, 2, 0])
        = t (cubletPositionToIndex ![0, 2, 0]) ∧
    rotateTable RotName.up true t (cubletPositionToIndex ![2, 2, 2])
        = t (cubletPositionToIndex ![2, 2, 0]) ∧
    rotateTable RotName.up true t (cubletPositionToIndex ![0, 2, 2])
        = t (cubletPositionToIndex ![2, 2, 2]) ∧
    rotateTable RotName.up true t (cubletPositionToIndex ![0, 2, 0])
        = t (cubletPositionToIndex ![0, 2, 2]) ∧
    rotateTable RotName.up true t (cubletPositionToIndex ![1, 2, 1])
        = t (cubletPositionToIndex ![1, 2, 1]) := by
  rw [rotateTable_eq_comp]
  exact ⟨congrArg t (by decide), congrArg t (by decide), congrArg t (by decide),
    congrArg t (by decide), congrArg t (by decide)⟩

/-- Claim C6: when a rotation completes, the new slot table satisfies
`newTable[newIndices[k]] = snapshot[indices[k]]` for every `k` in 0..8, and
every slot outside the destination indices keeps the entry the snapshot had. -/
theorem rotateTable_frame_effect {α : Type} (rot : RotName) (cw : Bool) (t : Nat → α) :
    (∀ k ∈ List.range 9,
      rotateTable rot cw t ((newIndicesOf rot cw).getD k 0)
        = t ((indicesOf rot cw).getD k 0)) ∧
    (∀ s : Nat, s ∉ newIndicesOf rot cw → rotateTable rot cw t s = t s) := by
  constructor
  · intro k hk
    rw [rotateTable_eq_comp]
    exact congrArg t (sigma_dst_src rot cw k hk)
  · intro s hs
    exact writeAll_not_dst (rotPairs rot cw) t t s hs

theorem rotateTable_frame_effect_witness :
    ((0 : Nat) ∈ List.range 9 ∧
      rotateTable RotName.up true (fun n : Nat => n) ((newIndicesOf RotName.up true).getD 0 0)
        = (fun n : Nat => n) ((indicesOf RotName.up true).getD 0 0)) ∧
    ((0 : Nat) ∉ newIndicesOf RotName.up true ∧
      rotateTable RotName.up true (fun n : Nat => n) 0 = (fun n : Nat => n) 0) :=
  ⟨⟨by decide, (rotateTable_frame_effect RotName.up true (fun n : Nat => n)).1 0 (by decide)⟩,
   ⟨by decide, (rotateTable_frame_effect RotName.up true (fun n : Nat => n)).2 0 (by decide)⟩⟩

/-- Claim C7: at the moment the affected cublets are re-parented onto the
pivot at the start of a rotation (interpolation 0, pivot local transform set
to the alignment matrix, child local recomputed as the inverse of the new
parent's world transform times the old world transform), each moved cublet's
world transform equals its world transform from just before the re-parenting,
provided the pivot's world transform is invertible. -/
theorem reparent_preserves_world (rot : RotName) (R c : Mat4)
    (h : (tempWorld R (alignmentMatrix rot)).det ≠ 0) :
    nodeWorld (tempWorld R (alignmentMatrix rot))
        (startRotateLocal R (alignmentMatrix rot) c)
      = nodeWorld (cubeletsWorld R) c := by
  show tempWorld R (alignmentMatrix rot)
      * (invertMat4 (tempWorld R (alignmentMatrix rot)) * (cubeletsWorld R * c))
    = cubeletsWorld R * c
  exact mul_invertMat4_cancel_left _ h _

theorem reparent_preserves_world_witness :
    ((tempWorld 1 (alignmentMatrix RotName.left)).det ≠ 0) ∧
    nodeWorld (tempWorld 1 (alignmentMatrix RotName.left))
        (startRotateLocal 1 (alignmentMatrix RotName.left) 1)
      = nodeWorld (cubeletsWorld 1) 1 :=
  ⟨by simp [tempWorld, nodeWorld, rubiksWorld, rootWorld, identityMat4,
      alignmentMatrix, alignAxisOf],
   reparent_preserves_world RotName.left 1 1
     (by simp [tempWorld, nodeWorld, rubiksWorld, rootWorld, identityMat4,
       alignmentMatrix, alignAxisOf])⟩

theorem completeRotation_four_witness :
    ((1 : Mat4).det ≠ 0) ∧
    completeRotation RotName.up true 1 (completeRotation RotName.up true 1
        (completeRotation RotName.up true 1 (completeRotation RotName.up true 1
          (fun _ => (⟨0, 1⟩ : Cublet Nat)))))
      = (fun _ => (⟨0, 1⟩ : Cublet Nat)) :=
  ⟨by simp, completeRotation_four RotName.up true 1 (fun _ => (⟨0, 1⟩ : Cublet Nat)) (by simp)⟩

theorem setChildren_spec_witness :
    (¬ ([1, 1] : List Nat).Nodup ∧
      setChildren 0 [1, 1] ⟨fun _ => none, fun _ => []⟩
        = (⟨fun _ => none, fun _ => []⟩, some TreeErr.dupChildren)) ∧
    (([1, 2] : List Nat).Nodup ∧
      ∃ s1, setChildren 0 [1, 2] ⟨fun _ => none, fun _ => []⟩ = (s1, none) ∧
        s1.chl 0 = [1, 2] ∧
        (∀ c ∈ ([1, 2] : List Nat), s1.par c = some 0) ∧
        (∀ c ∈ (⟨fun _ => none, fun _ => []⟩ : TreeState).chl 0, c ∉ ([1, 2] : List Nat) →
          s1.par c = none) ∧
        (∀ q : Nat, q ≠ 0 → s1.chl q = (⟨fun _ => none, fun _ => []⟩ : TreeState).chl q)) :=
  ⟨⟨by decide, (setChildren_spec 0 [1, 1] ⟨fun _ => none, fun _ => []⟩).1 (by decide)⟩,
   ⟨by decide, (setChildren_spec 0 [1, 2] ⟨fun _ => none, fun _ => []⟩).2 (by decide)
     (fun c _ => Or.inl rfl)⟩⟩

/-- Claim C10: for a rotation name outside the nine recognized ones,
`getRotationInfo` performs no validation and signals no controlled
"unknown rotation" error: no dispatch branch matches, the index lists remain
undefined, and the undefined axis variable flows into the alignment-matrix
construction, which is where the call fails with an uncontrolled type error. -/
theorem getRotationInfoJS_unknown (rotation : String) (cw : Bool)
    (h : rotation ∉ ROTATIONS) :
    indexListsJS rotation cw = (.jsUndefined, .jsUndefined) ∧
    getRotationInfoJS rotation cw = .error .typeError := by
  simp only [ROTATIONS, List.mem_cons, List.not_mem_nil, or_false, not_or] at h
  obtain ⟨h1, h2, h3, h4, h5, h6, h7, h8, h9⟩ := h
  constructor
  · simp only [indexListsJS, h1, h2, h3, h4, h5, h6, h7, h8, h9, if_false]
  · simp only [getRotationInfoJS, axisForJS, h1, h2, h3, h4, h5, h6, h7, h8, h9, if_false]
    rfl

theorem getRotationInfoJS_unknown_witness :
    ("middle" ∉ ROTATIONS) ∧
    (indexListsJS "middle" true = (.jsUndefined, .jsUndefined) ∧
      getRotationInfoJS "middle" true = .error .typeError) :=
  ⟨by decide, getRotationInfoJS_unknown "middle" true (by decide)⟩

end RubiksCube
